import Mathlib

/-!
Shallow embedding of the openclaw-agent daily-run pipeline.

The JavaScript sources embedded here:
* `lib/state_history.mjs` — `loadSentFingerprints`, `filterNewCandidates`
* `lib/gmail_send.mjs` — `writeRunState`, `sentHistoryHasRunDir`,
  `appendSentHistoryEntries`, `loadPendingHistory`,
  `commitRunHistoryIfNeeded`, `sendRun`
* `tools/gmail_send_daily.mjs` — the standalone copies of the commit helpers
  (named `tools*` here, because they differ in the order of the
  pending-history load and the runDir guard)
* `run_daily.mjs` — `uniqueByFingerprint`, `writeRunState`, the per-query
  merge loop of `main`, selection, and the email-mode choice
* `lib/openai_enrich.mjs` — the fingerprint allow-list filter of
  `enrichLeadsOpenAI`

Files on disk are modelled as `Option` values (`none` = file missing or
unparsable), machine state is threaded explicitly, and every network call is
an oracle parameter.  JavaScript string truthiness (`""` and `undefined`
being falsy) is modelled by `jsTruthy` on `Option String`.
-/

set_option autoImplicit false

namespace Openclaw

/-- JS truthiness of a possibly-absent string: `undefined`/missing and the
empty string are falsy, every other string is truthy. -/
def jsTruthy : Option String → Bool
  | none => false
  | some s => s ≠ ""

/-- The four run statuses of `RUN_STATUS` (`run_daily.mjs`,
`lib/gmail_send.mjs`, `tools/gmail_send_daily.mjs`). -/
inductive Status where
  | STARTED
  | GENERATED
  | SENT
  | COMMITTED
deriving DecidableEq, Repr

/-- The position of a status in the lifecycle order
STARTED → GENERATED → SENT → COMMITTED; an absent status ranks lowest. -/
def statusRank : Option Status → Nat
  | none => 0
  | some .STARTED => 1
  | some .GENERATED => 2
  | some .SENT => 3
  | some .COMMITTED => 4

/-- The `committed` object written by `commitRunHistoryIfNeeded`
(`sent_history_appended` count plus the optional `dedupe_guard` tag). -/
structure CommittedMark where
  sent_history_appended : Nat
  dedupe_guard : Option String
deriving DecidableEq, Repr

/-- A send receipt (`send_result.json` / `gmail_send_result.json`); only the
`messageId` field is observed by the embedded code paths. -/
structure Receipt where
  messageId : Option String
deriving DecidableEq, Repr

instance : Inhabited Receipt := ⟨⟨none⟩⟩

/-- The typed view of a run's `state.json`, restricted to the fields the
commit protocol and send path read or write. -/
structure StateJson where
  status : Option Status
  committed_at : Option String
  committed : Option CommittedMark
  send : Option Receipt
  pending_commit : Option Nat
  updated_at : Option String
deriving DecidableEq, Repr

/-- A `state.json` that does not exist yet reads as `{}`. -/
def emptyStateJson : StateJson :=
  { status := none, committed_at := none, committed := none, send := none
    pending_commit := none, updated_at := none }

/-- A patch passed to `writeRunState`; `none` means the field is absent from
the patch object (JS object spread only overlays present fields). -/
structure StatePatch where
  status : Option Status := none
  committed_at : Option String := none
  committed : Option CommittedMark := none
  send : Option Receipt := none
  pending_commit : Option Nat := none
deriving DecidableEq, Repr

/-- The overlay `{...prev, ...patch, updated_at: now}` performed by
`writeRunState` (`lib/gmail_send.mjs` lines 116–126, `run_daily.mjs`
lines 149–159), on the typed view of the state file. -/
def applyPatch (prev : StateJson) (p : StatePatch) (now : String) : StateJson :=
  { status := match p.status with | some v => some v | none => prev.status
    committed_at := match p.committed_at with | some v => some v | none => prev.committed_at
    committed := match p.committed with | some v => some v | none => prev.committed
    send := match p.send with | some v => some v | none => prev.send
    pending_commit := match p.pending_commit with | some v => some v | none => prev.pending_commit
    updated_at := some now }

/-- One line of `state/sent_history.jsonl`: either it parses as a JSON object
(with optional `fingerprint` and `runDir` fields), or it is malformed /
parses to a non-object (both behave identically in every scan). -/
inductive LedgerLine where
  | entry (fingerprint : Option String) (runDir : Option String)
  | malformed
deriving DecidableEq, Repr

/-- `pending_sent_history.json`: the staged ledger entries.  `entries = none`
models a present file whose `entries` field is missing or not an array
(an empty array is truthy in JS, hence `some []` is valid). -/
structure PendingJson where
  entries : Option (List LedgerLine)
deriving DecidableEq, Repr

/-- `google_oauth_client.json` (collapsed over the `installed`/`web` shapes). -/
structure OAuthClient where
  client_id : Option String
  client_secret : Option String
deriving DecidableEq, Repr

/-- `google_tokens.json`. -/
structure Tokens where
  access_token : Option String
  refresh_token : Option String
deriving DecidableEq, Repr

/-- `email_payload.json`. -/
structure EmailPayload where
  subject : Option String
  bodyText : Option String
deriving DecidableEq, Repr

/-- The filesystem and network-effect state threaded through the embedded
operations of one run directory.  `stateLog` records every state object
persisted by `writeRunState`, in order; `netSends` counts Gmail send calls. -/
structure FS where
  runState : StateJson
  stateLog : List StateJson
  pendingFile : Option PendingJson
  ledger : Option (List LedgerLine)
  emailPayload : Option EmailPayload
  sendResult : Option Receipt
  legacySendResult : Option Receipt
  oauthClient : Option OAuthClient
  tokens : Option Tokens
  netSends : Nat
deriving DecidableEq, Repr

/-- `writeRunState(runDir, patch)`: read the previous state, overlay the
patch, stamp `updated_at`, write it back (recorded in `stateLog`). -/
def writeRunStateM (fs : FS) (p : StatePatch) (now : String) : FS :=
  let next := applyPatch fs.runState p now
  { fs with runState := next, stateLog := fs.stateLog ++ [next] }

/-- `loadSentFingerprints` (`lib/state_history.mjs` lines 35–56): scan the
ledger, collecting the truthy `fingerprint` values of the lines that parse
as JSON objects; malformed lines are skipped; a missing file yields the
empty set.  The JS `Set` is modelled as a duplicate-free list. -/
def loadSentFingerprintsAux : List LedgerLine → List String → List String
  | [], set => set
  | line :: rest, set =>
    match line with
    | .entry fp _ =>
      match fp with
      | some s =>
        if s ≠ "" then
          loadSentFingerprintsAux rest (if set.contains s then set else set ++ [s])
        else loadSentFingerprintsAux rest set
      | none => loadSentFingerprintsAux rest set
    | .malformed => loadSentFingerprintsAux rest set

/-- See `loadSentFingerprintsAux`. -/
def loadSentFingerprints : Option (List LedgerLine) → List String
  | none => []
  | some lines => loadSentFingerprintsAux lines []

/-- `sentHistoryHasRunDir` (`lib/gmail_send.mjs` lines 141–159, identical in
`tools/gmail_send_daily.mjs`): does any parsed ledger line have
`runDir === d`?  Malformed lines are ignored; a missing file gives `false`. -/
def sentHistoryHasRunDir (d : String) : Option (List LedgerLine) → Bool
  | none => false
  | some lines =>
    lines.any fun line =>
      match line with
      | .entry _ rd => rd = some d
      | .malformed => false

/-- `appendSentHistoryEntries` (`lib/gmail_send.mjs` lines 132–139): appends
one JSON line per entry (creating the file if needed) and returns the count;
an empty or missing entry list appends nothing and returns 0. -/
def appendSentHistoryEntries (entries : List LedgerLine)
    (ledger : Option (List LedgerLine)) : Option (List LedgerLine) × Nat :=
  if entries.isEmpty then (ledger, 0)
  else (some (ledger.getD [] ++ entries), entries.length)

/-- `loadPendingHistory` (`lib/gmail_send.mjs` lines 161–168): the staged
entries of `pending_sent_history.json`; a missing/invalid file or a missing
`entries` array is an error (thrown in JS). -/
def loadPendingHistory (pf : Option PendingJson) (runDir : String) :
    Except String (List LedgerLine) :=
  match pf with
  | none => .error ("Missing or invalid pending_sent_history.json in " ++ runDir)
  | some p =>
    match p.entries with
    | none => .error ("Missing or invalid pending_sent_history.json in " ++ runDir)
    | some es => .ok es

/-- The result object of `commitRunHistoryIfNeeded`. -/
structure CommitRet where
  committed : Bool
  reason : Option String
  appended : Option Nat
deriving DecidableEq, Repr

/-- The no-op result `{ committed: false, reason }`. -/
def CommitRet.noop (r : String) : CommitRet :=
  { committed := false, reason := some r, appended := none }

/-- The committing result `{ committed: true, appended }`. -/
def CommitRet.done (n : Nat) : CommitRet :=
  { committed := true, reason := none, appended := some n }

/-- The state patch `{status: COMMITTED, committed_at, committed: {...}}`. -/
def commitPatch (now : String) (appended : Nat) (guard : Option String) : StatePatch :=
  { status := some .COMMITTED, committed_at := some now
    committed := some { sent_history_appended := appended, dedupe_guard := guard } }

/-- `commitRunHistoryIfNeeded` (`lib/gmail_send.mjs` lines 170–196):
1. already COMMITTED (or `committed_at` truthy) → no-op;
2. ledger already has an entry with this `runDir` → mark COMMITTED with
   `sent_history_appended: 0`, append nothing;
3. otherwise load the staged entries (error if missing/invalid), append them
   to the ledger, and mark COMMITTED with the count. -/
def commitRunHistoryIfNeeded (runDir now : String) (fs : FS) :
    FS × Except String CommitRet :=
  let state := fs.runState
  if state.status = some Status.COMMITTED ∨ jsTruthy state.committed_at then
    (fs, .ok (CommitRet.noop "already_committed_by_state"))
  else if sentHistoryHasRunDir runDir fs.ledger then
    (writeRunStateM fs (commitPatch now 0 (some "runDir_present")) now,
     .ok (CommitRet.noop "already_committed_by_runDir"))
  else
    match loadPendingHistory fs.pendingFile runDir with
    | .error e => (fs, .error e)
    | .ok entries =>
      let r := appendSentHistoryEntries entries fs.ledger
      (writeRunStateM { fs with ledger := r.1 } (commitPatch now r.2 none) now,
       .ok (CommitRet.done r.2))

/-- `commitRunHistoryIfNeeded` as written in `tools/gmail_send_daily.mjs`
lines 237–266: same steps, except the staged entries are loaded BEFORE the
runDir guard, so the guard branch is reachable only when
`pending_sent_history.json` is loadable. -/
def toolsCommitRunHistoryIfNeeded (runDir now : String) (fs : FS) :
    FS × Except String CommitRet :=
  let state := fs.runState
  if state.status = some Status.COMMITTED ∨ jsTruthy state.committed_at then
    (fs, .ok (CommitRet.noop "already_committed_by_state"))
  else
    match loadPendingHistory fs.pendingFile runDir with
    | .error e => (fs, .error e)
    | .ok entries =>
      if sentHistoryHasRunDir runDir fs.ledger then
        (writeRunStateM fs (commitPatch now 0 (some "runDir_present")) now,
         .ok (CommitRet.noop "already_committed_by_runDir"))
      else
        let r := appendSentHistoryEntries entries fs.ledger
        (writeRunStateM { fs with ledger := r.1 } (commitPatch now r.2 none) now,
         .ok (CommitRet.done r.2))

/-- The JS check `!s.trim()`: `s` trims to the empty string iff every
character is whitespace. -/
def jsBlank (s : String) : Bool :=
  s.toList.all Char.isWhitespace

/-- JS `String.prototype.includes` for a non-empty needle: `sub` occurs in
`s` iff splitting on it yields more than one piece. -/
def jsIncludes (s sub : String) : Bool :=
  (s.splitOn sub).length != 1

/-- The authorization-failure sniff of `sendRun` (`lib/gmail_send.mjs`
lines 296–299): the message contains "401", "invalid" or "unauthorized". -/
def looksAuthError (msg : String) : Bool :=
  jsIncludes msg "401" || jsIncludes msg.toLower "invalid"
    || jsIncludes msg.toLower "unauthorized"

/-- The JSON body returned by a successful Gmail send. -/
structure GmailResult where
  id : Option String
  threadId : Option String
deriving DecidableEq, Repr

/-- The JSON returned by a successful token refresh. -/
structure RefreshedTokens where
  access_token : Option String
deriving DecidableEq, Repr

/-- Oracle outcomes for the (at most two) Gmail send attempts and the
token-refresh call of one `sendRun` invocation; `.error` carries the thrown
message. -/
structure Net where
  first : Except String GmailResult
  refresh : Except String RefreshedTokens
  second : Except String GmailResult
deriving Repr

/-- The object returned by a successful `sendRun`. -/
structure SendRet where
  ok : Bool
  alreadyCommitted : Bool := false
  alreadySent : Bool := false
  messageId : Option String := none
  refreshed : Bool := false
  commit : Option CommitRet := none
deriving DecidableEq, Repr

/-- Plumbing for `commitRunHistoryIfNeeded(...)` called in tail position: a
commit error propagates (the JS exception), a commit result is folded into
the return object. -/
def commitThen (c : FS × Except String CommitRet) (f : CommitRet → SendRet) :
    FS × Except String SendRet :=
  match c with
  | (fs2, .ok r) => (fs2, .ok (f r))
  | (fs2, .error e) => (fs2, .error e)

/-- The tail of `sendRun` after a confirmed network send (`lib/gmail_send.mjs`
lines 325–352): persist the receipt (current and legacy artifact), flip the
run state to SENT, then run the commit protocol. -/
def sendRunFinish (runDir now : String) (result : GmailResult)
    (usedRefresh : Bool) (fs : FS) : FS × Except String SendRet :=
  let receipt : Receipt := { messageId := result.id }
  let fs1 := { fs with sendResult := some receipt, legacySendResult := some receipt }
  let fs2 := writeRunStateM fs1 { status := some .SENT, send := some receipt } now
  commitThen (commitRunHistoryIfNeeded runDir now fs2)
    (fun c => { ok := true, messageId := receipt.messageId, refreshed := usedRefresh
                commit := some c })

/-- The already-sent branch of `sendRun` (`lib/gmail_send.mjs` lines
241–260): a receipt artifact (current or legacy) exists, so no network send
happens; its content is adopted, the run state is raised to SENT if it is
not yet SENT/COMMITTED, and the commit check runs. -/
def sendRunAlreadySent (runDir now : String) (fs : FS) : FS × Except String SendRet :=
  let receipt :=
    if fs.sendResult.isSome then fs.sendResult.getD default
    else fs.legacySendResult.getD default
  let fs1 :=
    if fs.runState.status ≠ some Status.SENT ∧ fs.runState.status ≠ some Status.COMMITTED then
      writeRunStateM fs { status := some .SENT, send := some receipt } now
    else fs
  commitThen (commitRunHistoryIfNeeded runDir now fs1)
    (fun c => { ok := true, alreadySent := true, messageId := receipt.messageId
                commit := some c })

/-- `sendRun` (`lib/gmail_send.mjs` lines 206–353).  Every network call is an
oracle from `net`; each Gmail send attempt increments `netSends`. -/
def sendRun (runDir : String) (recipients : List String) (net : Net)
    (now : String) (fs : FS) : FS × Except String SendRet :=
  if runDir = "" then (fs, .error "sendRun: runDir is required")
  else if recipients.length < 1 then (fs, .error "sendRun: recipients required")
  else
    match fs.emailPayload with
    | none => (fs, .error "Missing email_payload.json. Run run_daily.mjs first.")
    | some payload =>
      let bodyText := payload.bodyText.getD ""
      if jsBlank bodyText then (fs, .error "email_payload.json had empty bodyText")
      else
        let stateBefore := fs.runState
        if stateBefore.status = some Status.COMMITTED ∨ jsTruthy stateBefore.committed_at then
          (fs, .ok { ok := true, alreadyCommitted := true })
        else if fs.sendResult.isSome || fs.legacySendResult.isSome then
          sendRunAlreadySent runDir now fs
        else
          match fs.oauthClient with
          | none => (fs, .error "Missing google_oauth_client.json")
          | some oc =>
            match fs.tokens with
            | none => (fs, .error "Missing google_tokens.json")
            | some tk =>
              if ¬(jsTruthy oc.client_id ∧ jsTruthy oc.client_secret) then
                (fs, .error "google_oauth_client.json missing client_id/client_secret")
              else if ¬jsTruthy tk.access_token then
                (fs, .error "google_tokens.json missing access_token")
              else
                let fsA := { fs with netSends := fs.netSends + 1 }
                match net.first with
                | .ok result => sendRunFinish runDir now result false fsA
                | .error msg =>
                  if ¬looksAuthError msg then (fsA, .error msg)
                  else if ¬jsTruthy tk.refresh_token then
                    (fsA, .error "Access token failed and no refresh_token present.")
                  else
                    match net.refresh with
                    | .error e => (fsA, .error e)
                    | .ok refreshed =>
                      let fsB := { fsA with
                        tokens := some { tk with access_token := refreshed.access_token } }
                      let fsC := { fsB with netSends := fsB.netSends + 1 }
                      match net.second with
                      | .error e => (fsC, .error e)
                      | .ok result => sendRunFinish runDir now result true fsC

/-- A scored candidate (output shape of `scoreResults` in
`lib/score_leads.mjs`; scoring itself is an external collaborator). -/
structure Candidate where
  fingerprint : Option String
  score : Int
  reasons : List String
  title : String
  url : String
  description : String
  host : String
deriving DecidableEq, Repr

/-- Loop body of `uniqueByFingerprint` (`run_daily.mjs` lines 137–147):
skip falsy fingerprints, skip already-seen fingerprints, keep the rest in
order; `seen` models the JS `Set`. -/
def uniqueByFingerprintAux (seen : List String) : List Candidate → List Candidate
  | [] => []
  | c :: cs =>
    match c.fingerprint with
    | none => uniqueByFingerprintAux seen cs
    | some fp =>
      if fp = "" then uniqueByFingerprintAux seen cs
      else if seen.contains fp then uniqueByFingerprintAux seen cs
      else c :: uniqueByFingerprintAux (fp :: seen) cs

/-- `uniqueByFingerprint` (`run_daily.mjs` lines 137–147). -/
def uniqueByFingerprint (scored : List Candidate) : List Candidate :=
  uniqueByFingerprintAux [] scored

/-- One skipped candidate of `filterNewCandidates`. -/
structure SkippedCand where
  candidate : Candidate
  reason : String
deriving DecidableEq, Repr

/-- The `{fresh, skipped}` result of `filterNewCandidates`. -/
structure FilterResult where
  fresh : List Candidate
  skipped : List SkippedCand
deriving DecidableEq, Repr

/-- `filterNewCandidates` (`lib/state_history.mjs` lines 58–76): candidates
with a falsy fingerprint are skipped as `missing_fingerprint`, those whose
fingerprint is in the sent set as `already_sent`; the rest are fresh. -/
def filterNewCandidates : List Candidate → List String → FilterResult
  | [], _ => ⟨[], []⟩
  | c :: cs, sent =>
    let r := filterNewCandidates cs sent
    match c.fingerprint with
    | none => ⟨r.fresh, ⟨c, "missing_fingerprint"⟩ :: r.skipped⟩
    | some fp =>
      if fp = "" then ⟨r.fresh, ⟨c, "missing_fingerprint"⟩ :: r.skipped⟩
      else if sent.contains fp then ⟨r.fresh, ⟨c, "already_sent"⟩ :: r.skipped⟩
      else ⟨c :: r.fresh, r.skipped⟩

/-- Number of fresh (not-in-ledger) candidates in a merged set. -/
def freshLen (sent : List String) (m : List Candidate) : Nat :=
  ((filterNewCandidates m sent).fresh).length

/-- One fold step of the query loop in `main` (`run_daily.mjs` line 250):
`mergedRanked = uniqueByFingerprint([...mergedRanked, ...ranked])`. -/
def mergeStep (m b : List Candidate) : List Candidate :=
  uniqueByFingerprint (m ++ b)

/-- The query loop of `main` (`run_daily.mjs` lines 240–266) on the scored
batches of the successive query variants: merge each batch in and stop as
soon as the fresh count reaches `n` (or the variants run out), returning the
merged set and the number of queries issued. -/
def mergeLoopAux (n : Nat) (sent : List String) :
    List (List Candidate) → List Candidate → List Candidate × Nat
  | [], m => (m, 0)
  | b :: bs, m =>
    let mNext := mergeStep m b
    if n ≤ freshLen sent mNext then (mNext, 1)
    else
      let r := mergeLoopAux n sent bs mNext
      (r.1, r.2 + 1)

/-- See `mergeLoopAux`; the loop starts from an empty merged set. -/
def mergeLoop (n : Nat) (sent : List String) (batches : List (List Candidate)) :
    List Candidate × Nat :=
  mergeLoopAux n sent batches []

/-- The query loop with fallible searches: a failed search aborts the run
(`braveSearch` throws in `run_daily.mjs` line 244). -/
def mergeLoopE (n : Nat) (sent : List String) :
    List (Except String (List Candidate)) → List Candidate →
    Except String (List Candidate × Nat)
  | [], m => .ok (m, 0)
  | b :: bs, m =>
    match b with
    | .error e => .error e
    | .ok ranked =>
      let mNext := mergeStep m ranked
      if n ≤ freshLen sent mNext then .ok (mNext, 1)
      else
        match mergeLoopE n sent bs mNext with
        | .error e => .error e
        | .ok r => .ok (r.1, r.2 + 1)

/-- `mergedRanked.sort((a, b) => b.score - a.score)` (`run_daily.mjs`
line 268): the stable descending sort by score (JS `Array.prototype.sort`
is stable; insertion sort is the canonical stable sort). -/
def sortByScoreDesc (l : List Candidate) : List Candidate :=
  l.insertionSort (fun a b => b.score ≤ a.score)

/-- Selection (`run_daily.mjs` lines 268–271): re-sort the merged set by
descending score, drop non-fresh candidates, take the first `n`. -/
def selectTopFresh (merged : List Candidate) (sent : List String) (n : Nat) :
    List Candidate :=
  ((filterNewCandidates (sortByScoreDesc merged) sent).fresh).take n

/-- A lead object as returned by the enrichment collaborator, after the
field-normalization map of `enrichLeadsOpenAI` (every field nullable). -/
structure RawLead where
  fingerprint : Option String
  name : Option String
  main_phone : Option String
  address : Option String
  website : Option String
  description : Option String
  reason_for_inclusion : Option String
deriving DecidableEq, Repr

/-- The fingerprint allow-list filter of `enrichLeadsOpenAI`
(`lib/openai_enrich.mjs` lines 124–137): keep only leads whose fingerprint
is truthy and present among the input candidates' fingerprints. -/
def enrichAllowFilter (selected : List Candidate) (leads : List RawLead) :
    List RawLead :=
  let allow := selected.map (fun c => c.fingerprint)
  leads.filter fun l => jsTruthy l.fingerprint && allow.contains l.fingerprint

/-- `enrichLeadsOpenAI` with the API response as an oracle: an empty
selection short-circuits to `[]` (line 38); otherwise the response leads are
normalized and filtered to the input fingerprints. -/
def enrichLeadsOpenAIModel (selected : List Candidate) (apiLeads : List RawLead) :
    List RawLead :=
  if selected.isEmpty then [] else enrichAllowFilter selected apiLeads

/-- `emailLeads = useNormalized ? enriched : selected`. -/
inductive EmailLeads where
  | normalized (ls : List RawLead)
  | scored (ls : List Candidate)
deriving DecidableEq, Repr

/-- The email-mode choice of `main` (`run_daily.mjs` lines 322–324): the
enriched list is used only when it is non-empty, otherwise the un-enriched
selected candidates in "scored" mode. -/
def chooseEmail (enriched : List RawLead) (selected : List Candidate) :
    String × EmailLeads :=
  if enriched.length > 0 then ("normalized", .normalized enriched)
  else ("scored", .scored selected)

/-- CLI configuration of one `run_daily.mjs` invocation. -/
structure MainCfg where
  leadsPerRun : Nat
  skipEnrich : Bool
  sendFlag : Bool
  recipients : List String
deriving DecidableEq, Repr

/-- Plumbing for the tail call `sendRun(...)` of `main`: the success value is
dropped, an error propagates (non-zero exit in JS). -/
def discardRet (c : FS × Except String SendRet) : FS × Except String Unit :=
  match c with
  | (fs2, .ok _) => (fs2, .ok ())
  | (fs2, .error e) => (fs2, .error e)

/-- The run-lifecycle skeleton of `main` (`run_daily.mjs` lines 161–439),
restricted to the state the embedded claims observe: recipient validation,
STARTED, the query loop, selection, best-effort enrichment, the email-mode
choice, GENERATED, staging of `pending_sent_history.json`, the
`pending_commit` patch, and the optional send+commit.  The search, scoring,
enrichment and formatting collaborators are oracle parameters.  The run
directory is freshly created, so its `state.json` starts empty. -/
def mainModel (cfg : MainCfg) (runDir : String)
    (queryBatches : List (Except String (List Candidate)))
    (enrichOutcome : Except String (List RawLead))
    (fmt : String → EmailLeads → EmailPayload)
    (net : Net) (now : String) (fs : FS) : FS × Except String Unit :=
  if cfg.sendFlag ∧ cfg.recipients.isEmpty then
    (fs, .error "When using --send, provide recipients")
  else
    let sentSet := loadSentFingerprints fs.ledger
    let fs := writeRunStateM fs { status := some .STARTED } now
    match mergeLoopE cfg.leadsPerRun sentSet queryBatches [] with
    | .error e => (fs, .error e)
    | .ok mr =>
      let mergedRanked := sortByScoreDesc mr.1
      let fr := filterNewCandidates mergedRanked sentSet
      let selected := fr.fresh.take cfg.leadsPerRun
      let enriched :=
        if cfg.skipEnrich then []
        else
          match enrichOutcome with
          | .ok leads => enrichLeadsOpenAIModel selected leads
          | .error _ => []
      let choice := chooseEmail enriched selected
      let fs := { fs with emailPayload := some (fmt choice.1 choice.2) }
      let fs := writeRunStateM fs { status := some .GENERATED } now
      let pendingHistory := selected.map fun c =>
        LedgerLine.entry c.fingerprint (some runDir)
      let fs := { fs with pendingFile := some { entries := some pendingHistory } }
      let fs := writeRunStateM fs { pending_commit := some pendingHistory.length } now
      if cfg.sendFlag then discardRet (sendRun runDir cfg.recipients net now fs)
      else (fs, .ok ())

/-- A JSON scalar value, for the untyped view of `state.json`. -/
inductive JsVal where
  | str (s : String)
  | num (n : Int)
  | boolean (b : Bool)
  | null
deriving DecidableEq, Repr

/-- A JSON object as a partial map from field names to values (`none` =
field absent). -/
def JsObj := String → Option JsVal

/-- `writeRunState` (`run_daily.mjs` lines 149–159 and `lib/gmail_send.mjs`
lines 116–126) on the untyped view: `{...prev, ...patch, updated_at: now}` —
fields present in the patch win over the prior state, `updated_at` is always
rewritten, everything else is kept. -/
def writeRunStateObj (prev patch : JsObj) (now : String) : JsObj :=
  fun k =>
    if k = "updated_at" then some (.str now)
    else
      match patch k with
      | some v => some v
      | none => prev k

/-- The later state's status is not earlier in the lifecycle order than the
earlier state's. -/
def statusLe (s t : StateJson) : Prop :=
  statusRank s.status ≤ statusRank t.status

/-- Every consecutive pair of a sequence of persisted states (starting from
`s`) is status-monotone. -/
def ChainMono : StateJson → List StateJson → Prop
  | _, [] => True
  | s, t :: rest => statusLe s t ∧ ChainMono t rest

/-- `fs'` extends `fs` by a (possibly empty) sequence of `writeRunState`
writes, each of which is status-monotone with respect to the previously
persisted state; `fs'.runState` is the last persisted state. -/
def ExtendsMono (fs fs' : FS) : Prop :=
  ∃ δ, fs'.stateLog = fs.stateLog ++ δ ∧
    fs'.runState = δ.getLastD fs.runState ∧
    ChainMono fs.runState δ

/-! ### Concrete fixtures for witnesses and counterexamples -/

/-- A pristine filesystem: empty run state, no artifacts, no ledger. -/
def fsBase : FS :=
  { runState := emptyStateJson, stateLog := [], pendingFile := none, ledger := none
    emailPayload := none, sendResult := none, legacySendResult := none
    oauthClient := none, tokens := none, netSends := 0 }

/-- A run whose persisted status is already COMMITTED. -/
def fsCommitted : FS :=
  { fsBase with runState := { emptyStateJson with status := some .COMMITTED } }

/-- A ledger holding one entry whose `runDir` is `"reports/d/r1"`. -/
def ledgerR1 : List LedgerLine :=
  [LedgerLine.entry (some "fp1") (some "reports/d/r1")]

/-- GENERATED run, ledger already references its runDir, but the staged
`pending_sent_history.json` is missing. -/
def fsGuardNoPending : FS :=
  { fsBase with
    runState := { emptyStateJson with status := some .GENERATED }
    ledger := some ledgerR1 }

/-- GENERATED run with a `committed_at` timestamp but status ≠ COMMITTED,
ledger already referencing its runDir, staging record present. -/
def fsGuardCommittedAt : FS :=
  { fsBase with
    runState := { emptyStateJson with status := some .GENERATED, committed_at := some "T0" }
    ledger := some ledgerR1
    pendingFile := some { entries := some [] } }

/-- A valid email payload. -/
def payloadEx : EmailPayload := { subject := some "s", bodyText := some "hello" }

/-- A run whose persisted status is SENT but with no receipt artifact on
disk; credentials are present and the staging record is loadable. -/
def fsSentNoReceipt : FS :=
  { fsBase with
    runState := { emptyStateJson with status := some .SENT }
    emailPayload := some payloadEx
    oauthClient := some { client_id := some "cid", client_secret := some "sec" }
    tokens := some { access_token := some "tok", refresh_token := none }
    pendingFile := some { entries := some [LedgerLine.entry (some "fpA") (some "reports/d/r1")] } }

/-- Oracle: the first Gmail send attempt succeeds. -/
def netOk : Net :=
  { first := .ok { id := some "m1", threadId := none }
    refresh := .error "unused", second := .error "unused" }

/-- A receipt artifact. -/
def receiptEx : Receipt := { messageId := some "m0" }

/-- A GENERATED run whose `send_result.json` already exists. -/
def fsWithReceipt : FS :=
  { fsBase with
    runState := { emptyStateJson with status := some .GENERATED }
    emailPayload := some payloadEx
    sendResult := some receiptEx
    pendingFile := some { entries := some [LedgerLine.entry (some "fpA") (some "reports/d/r1")] } }

/-- A candidate with the given fingerprint and score. -/
def mkCand (fp : String) (sc : Int) : Candidate :=
  { fingerprint := some fp, score := sc, reasons := [], title := "", url := ""
    description := "", host := "" }

/-- Six unique fresh candidates (first query variant's scored batch). -/
def batch6 : List Candidate :=
  [mkCand "c1" 1, mkCand "c2" 2, mkCand "c3" 3, mkCand "c4" 4, mkCand "c5" 5, mkCand "c6" 6]

/-- A second query variant's batch (never reached in the stopping witness). -/
def batch1 : List Candidate := [mkCand "c7" 7]

/-- An enrichment lead with the given fingerprint and no other data. -/
def mkLead (fp : Option String) : RawLead :=
  { fingerprint := fp, name := none, main_phone := none, address := none
    website := none, description := none, reason_for_inclusion := none }

/-- An untyped prior state with one field `"a"`. -/
def prevObjEx : JsObj := fun k => if k = "a" then some (.num 1) else none

/-- An untyped patch with one field `"b"`. -/
def patchObjEx : JsObj := fun k => if k = "b" then some (.num 2) else none

/-! ### Commit-protocol lemmas -/

theorem commit_fastPath (d now : String) (fs : FS)
    (h : fs.runState.status = some Status.COMMITTED ∨ jsTruthy fs.runState.committed_at) :
    commitRunHistoryIfNeeded d now fs =
      (fs, .ok (CommitRet.noop "already_committed_by_state")) := by
  simp only [commitRunHistoryIfNeeded]
  rw [if_pos h]

theorem toolsCommit_fastPath (d now : String) (fs : FS)
    (h : fs.runState.status = some Status.COMMITTED ∨ jsTruthy fs.runState.committed_at) :
    toolsCommitRunHistoryIfNeeded d now fs =
      (fs, .ok (CommitRet.noop "already_committed_by_state")) := by
  simp only [toolsCommitRunHistoryIfNeeded]
  rw [if_pos h]

theorem writeRunStateM_commitPatch_status (fs : FS) (now : String) (a : Nat)
    (g : Option String) :
    (writeRunStateM fs (commitPatch now a g) now).runState.status =
      some Status.COMMITTED := rfl

theorem commit_result_committed (d now : String) (fs fs' : FS) (r : CommitRet)
    (h : commitRunHistoryIfNeeded d now fs = (fs', .ok r)) :
    fs'.runState.status = some Status.COMMITTED ∨ jsTruthy fs'.runState.committed_at := by
  by_cases h1 : fs.runState.status = some Status.COMMITTED ∨ jsTruthy fs.runState.committed_at
  · rw [commit_fastPath d now fs h1] at h
    cases h
    exact h1
  · simp only [commitRunHistoryIfNeeded, if_neg h1] at h
    by_cases h2 : sentHistoryHasRunDir d fs.ledger = true
    · rw [if_pos h2] at h
      cases h
      exact Or.inl rfl
    · rw [if_neg h2] at h
      cases hload : loadPendingHistory fs.pendingFile d with
      | error e => rw [hload] at h; cases h
      | ok es => rw [hload] at h; cases h; exact Or.inl rfl

theorem toolsCommit_result_committed (d now : String) (fs fs' : FS) (r : CommitRet)
    (h : toolsCommitRunHistoryIfNeeded d now fs = (fs', .ok r)) :
    fs'.runState.status = some Status.COMMITTED ∨ jsTruthy fs'.runState.committed_at := by
  by_cases h1 : fs.runState.status = some Status.COMMITTED ∨ jsTruthy fs.runState.committed_at
  · rw [toolsCommit_fastPath d now fs h1] at h
    cases h
    exact h1
  · simp only [toolsCommitRunHistoryIfNeeded, if_neg h1] at h
    cases hload : loadPendingHistory fs.pendingFile d with
    | error e => rw [hload] at h; cases h
    | ok es =>
      simp only [hload] at h
      by_cases h2 : sentHistoryHasRunDir d fs.ledger = true
      · rw [if_pos h2] at h
        cases h
        exact Or.inl rfl
      · rw [if_neg h2] at h
        cases h
        exact Or.inl rfl

/-- C1: invoking the Commit Protocol twice in a row on the same run directory
yields identical ledger contents and identical run state after the first
call: if the persisted status is COMMITTED or a `committed_at` timestamp is
present, the call (in both implementations) returns immediately, changing
nothing; and after any successful call, a repeat call is a no-op that leaves
the whole filesystem state — ledger included — unchanged. -/
theorem commitProtocol_idempotent (d now now' : String) (fs : FS) :
    ((fs.runState.status = some Status.COMMITTED ∨ jsTruthy fs.runState.committed_at) →
      commitRunHistoryIfNeeded d now fs =
        (fs, .ok (CommitRet.noop "already_committed_by_state")) ∧
      toolsCommitRunHistoryIfNeeded d now fs =
        (fs, .ok (CommitRet.noop "already_committed_by_state"))) ∧
    (∀ fs' r, commitRunHistoryIfNeeded d now fs = (fs', .ok r) →
      commitRunHistoryIfNeeded d now' fs' =
        (fs', .ok (CommitRet.noop "already_committed_by_state"))) ∧
    (∀ fs' r, toolsCommitRunHistoryIfNeeded d now fs = (fs', .ok r) →
      toolsCommitRunHistoryIfNeeded d now' fs' =
        (fs', .ok (CommitRet.noop "already_committed_by_state"))) := by
  refine ⟨fun h => ⟨commit_fastPath d now fs h, toolsCommit_fastPath d now fs h⟩, ?_, ?_⟩
  · intro fs' r h
    exact commit_fastPath d now' fs' (commit_result_committed d now fs fs' r h)
  · intro fs' r h
    exact toolsCommit_fastPath d now' fs' (toolsCommit_result_committed d now fs fs' r h)

/-- C1 witness: on a run already COMMITTED, the commit call is an exact
no-op. -/
theorem commitProtocol_idempotent_witness :
    commitRunHistoryIfNeeded "reports/d/r1" "T1" fsCommitted =
      (fsCommitted, .ok (CommitRet.noop "already_committed_by_state")) :=
  ((commitProtocol_idempotent "reports/d/r1" "T1" "T2" fsCommitted).1 (Or.inl rfl)).1

/-- C2 counterexample: the claim fails as stated on the cited code.
(1) In `tools/gmail_send_daily.mjs`, with status GENERATED (not COMMITTED)
and the ledger already containing this runDir, a missing
`pending_sent_history.json` makes the call throw instead of marking
COMMITTED — the staged record IS required there (step 3's load precedes the
step-2 guard).  (2) In `lib/gmail_send.mjs`, with status GENERATED but a
`committed_at` timestamp present, the call returns on the fast path without
ever marking `sent_history_appended: 0`. -/
theorem commit_runDirGuard_counterexample :
    (fsGuardNoPending.runState.status ≠ some Status.COMMITTED ∧
      sentHistoryHasRunDir "reports/d/r1" fsGuardNoPending.ledger = true ∧
      (toolsCommitRunHistoryIfNeeded "reports/d/r1" "T1" fsGuardNoPending).2 =
        .error "Missing or invalid pending_sent_history.json in reports/d/r1") ∧
    (fsGuardCommittedAt.runState.status ≠ some Status.COMMITTED ∧
      sentHistoryHasRunDir "reports/d/r1" fsGuardCommittedAt.ledger = true ∧
      commitRunHistoryIfNeeded "reports/d/r1" "T1" fsGuardCommittedAt =
        (fsGuardCommittedAt, .ok (CommitRet.noop "already_committed_by_state")) ∧
      fsGuardCommittedAt.runState.committed = none) := by
  refine ⟨⟨by decide, by decide, rfl⟩, ⟨by decide, by decide, rfl, rfl⟩⟩

/-- C2 (amended): for a run with status ≠ COMMITTED and no `committed_at`
timestamp, if the ledger already has an entry with this run's `runDir`, the
library implementation marks the run COMMITTED with
`sent_history_appended: 0` and appends nothing — regardless of whether the
staging record is loadable (the guard precedes the load, and is keyed on
runDir).  The standalone daily tool behaves identically, but only once its
staging record loads. -/
theorem commit_runDirGuard (d now : String) (fs : FS)
    (h1 : fs.runState.status ≠ some Status.COMMITTED)
    (h2 : jsTruthy fs.runState.committed_at = false)
    (h3 : sentHistoryHasRunDir d fs.ledger = true) :
    commitRunHistoryIfNeeded d now fs =
      (writeRunStateM fs (commitPatch now 0 (some "runDir_present")) now,
       .ok (CommitRet.noop "already_committed_by_runDir")) ∧
    (writeRunStateM fs (commitPatch now 0 (some "runDir_present")) now).ledger = fs.ledger ∧
    (writeRunStateM fs (commitPatch now 0 (some "runDir_present")) now).runState.status =
      some Status.COMMITTED ∧
    (writeRunStateM fs (commitPatch now 0 (some "runDir_present")) now).runState.committed =
      some { sent_history_appended := 0, dedupe_guard := some "runDir_present" } ∧
    (∀ es, loadPendingHistory fs.pendingFile d = .ok es →
      toolsCommitRunHistoryIfNeeded d now fs =
        (writeRunStateM fs (commitPatch now 0 (some "runDir_present")) now,
         .ok (CommitRet.noop "already_committed_by_runDir"))) := by
  have hfast : ¬(fs.runState.status = some Status.COMMITTED ∨
      jsTruthy fs.runState.committed_at) := by
    rintro (hc | hc)
    · exact h1 hc
    · rw [h2] at hc
      cases hc
  refine ⟨?_, rfl, rfl, rfl, ?_⟩
  · simp only [commitRunHistoryIfNeeded, if_neg hfast]
    rw [if_pos h3]
  · intro es hes
    simp only [toolsCommitRunHistoryIfNeeded, if_neg hfast, hes]
    rw [if_pos h3]

/-- C2 witness: a GENERATED run with no staging record, whose runDir the
ledger already references, is marked COMMITTED with zero entries appended
and the ledger left untouched. -/
theorem commit_runDirGuard_witness :
    commitRunHistoryIfNeeded "reports/d/r1" "T1" fsGuardNoPending =
      (writeRunStateM fsGuardNoPending (commitPatch "T1" 0 (some "runDir_present")) "T1",
       .ok (CommitRet.noop "already_committed_by_runDir")) ∧
    (writeRunStateM fsGuardNoPending
        (commitPatch "T1" 0 (some "runDir_present")) "T1").ledger =
      fsGuardNoPending.ledger :=
  ⟨(commit_runDirGuard "reports/d/r1" "T1" fsGuardNoPending
      (by decide) (by decide) (by decide)).1,
   (commit_runDirGuard "reports/d/r1" "T1" fsGuardNoPending
      (by decide) (by decide) (by decide)).2.1⟩

/-! ### Send-path lemmas -/

theorem commit_netSends (d now : String) (fs : FS) :
    (commitRunHistoryIfNeeded d now fs).1.netSends = fs.netSends := by
  simp only [commitRunHistoryIfNeeded]
  split
  · rfl
  · split
    · rfl
    · split
      · rfl
      · rfl

theorem commitThen_fst (c : FS × Except String CommitRet) (f : CommitRet → SendRet) :
    (commitThen c f).1 = c.1 := by
  rcases c with ⟨fs2, r⟩
  cases r <;> rfl

theorem discardRet_fst (c : FS × Except String SendRet) :
    (discardRet c).1 = c.1 := by
  rcases c with ⟨fs2, r⟩
  cases r <;> rfl

theorem alreadySent_netSends (d now : String) (fs : FS) :
    (sendRunAlreadySent d now fs).1.netSends = fs.netSends := by
  unfold sendRunAlreadySent
  rw [commitThen_fst, commit_netSends]
  split <;> rfl

/-- C3 counterexample: a run whose persisted status is SENT but which has no
send-receipt artifact on disk IS sent again over the network (`netSends`
goes from 0 to 1), contradicting the claim that no network send occurs
whenever the persisted status is already SENT. -/
theorem sendRun_sendGuard_counterexample :
    fsSentNoReceipt.runState.status = some Status.SENT ∧
    fsSentNoReceipt.sendResult = none ∧
    fsSentNoReceipt.legacySendResult = none ∧
    fsSentNoReceipt.netSends = 0 ∧
    (sendRun "reports/d/r1" ["a@x.com"] netOk "T1" fsSentNoReceipt).1.netSends = 1 :=
  ⟨rfl, rfl, rfl, rfl, rfl⟩

/-- C3 (amended): `sendRun` performs a network send only if the persisted
status is not COMMITTED, no `committed_at` timestamp is present, and no
receipt artifact (current or legacy) exists.  When status is COMMITTED or
`committed_at` is present it returns immediately, unchanged; when a receipt
artifact exists it performs no network send, adopts the receipt, and
proceeds to the commit check (`sendRunAlreadySent`).  The persisted status
being SENT does not by itself prevent a send. -/
theorem sendRun_sendGuard (d : String) (rcpts : List String) (net : Net)
    (now : String) (fs : FS) (pl : EmailPayload)
    (hd : d ≠ "") (hr : 1 ≤ rcpts.length) (hp : fs.emailPayload = some pl)
    (hb : ¬jsBlank (pl.bodyText.getD "") = true) :
    ((fs.runState.status = some Status.COMMITTED ∨ jsTruthy fs.runState.committed_at) →
      sendRun d rcpts net now fs = (fs, .ok { ok := true, alreadyCommitted := true })) ∧
    (¬(fs.runState.status = some Status.COMMITTED ∨ jsTruthy fs.runState.committed_at) →
      (fs.sendResult.isSome || fs.legacySendResult.isSome) = true →
      sendRun d rcpts net now fs = sendRunAlreadySent d now fs ∧
      (sendRunAlreadySent d now fs).1.netSends = fs.netSends) ∧
    ((sendRun d rcpts net now fs).1.netSends ≠ fs.netSends →
      fs.runState.status ≠ some Status.COMMITTED ∧
      jsTruthy fs.runState.committed_at = false ∧
      fs.sendResult = none ∧ fs.legacySendResult = none) := by
  have hr' : ¬(rcpts.length < 1) := by omega
  simp only [sendRun, if_neg hd, if_neg hr', hp]
  rw [if_neg hb]
  refine ⟨?_, ?_, ?_⟩
  · intro hcom
    rw [if_pos hcom]
  · intro hcom hrec
    rw [if_neg hcom, if_pos hrec]
    exact ⟨rfl, alreadySent_netSends d now fs⟩
  · intro hne
    by_cases hcom : fs.runState.status = some Status.COMMITTED ∨
        jsTruthy fs.runState.committed_at
    · rw [if_pos hcom] at hne
      exact absurd rfl hne
    · by_cases hrec : (fs.sendResult.isSome || fs.legacySendResult.isSome) = true
      · rw [if_neg hcom, if_pos hrec] at hne
        exact absurd (alreadySent_netSends d now fs) hne
      · have hnone : fs.sendResult = none ∧ fs.legacySendResult = none := by
          rcases o1 : fs.sendResult with _ | v1
          · rcases o2 : fs.legacySendResult with _ | v2
            · exact ⟨rfl, rfl⟩
            · exact absurd (by simp [o1, o2]) hrec
          · exact absurd (by simp [o1]) hrec
        have hst : fs.runState.status ≠ some Status.COMMITTED :=
          fun h => hcom (Or.inl h)
        have hca : jsTruthy fs.runState.committed_at = false := by
          rcases hv : jsTruthy fs.runState.committed_at
          · rfl
          · exact absurd (Or.inr hv) hcom
        exact ⟨hst, hca, hnone.1, hnone.2⟩

/-- C3 witness: a GENERATED run with an existing `send_result.json` is not
re-sent; the call reduces to the already-sent path, which performs no
network send and runs the commit check. -/
theorem sendRun_sendGuard_witness :
    sendRun "reports/d/r1" ["a@x.com"] netOk "T1" fsWithReceipt =
      sendRunAlreadySent "reports/d/r1" "T1" fsWithReceipt ∧
    (sendRunAlreadySent "reports/d/r1" "T1" fsWithReceipt).1.netSends =
      fsWithReceipt.netSends :=
  (sendRun_sendGuard "reports/d/r1" ["a@x.com"] netOk "T1" fsWithReceipt payloadEx
      (by decide) (by decide) rfl (by decide)).2.1 (by decide) (by decide)

/-! ### Status-monotonicity lemmas -/

theorem getLastD_append_state (δ1 δ2 : List StateJson) (s : StateJson) :
    (δ1 ++ δ2).getLastD s = δ2.getLastD (δ1.getLastD s) := by
  induction δ1 generalizing s with
  | nil => rfl
  | cons t rest ih =>
    rw [List.cons_append, List.getLastD_cons, List.getLastD_cons]
    exact ih t

theorem chainMono_append (s : StateJson) (δ1 δ2 : List StateJson)
    (h1 : ChainMono s δ1) (h2 : ChainMono (δ1.getLastD s) δ2) :
    ChainMono s (δ1 ++ δ2) := by
  induction δ1 generalizing s with
  | nil => exact h2
  | cons t rest ih =>
    exact ⟨h1.1, ih t h1.2 (by rw [List.getLastD_cons] at h2; exact h2)⟩

theorem extendsMono_eq (fs fs' : FS) (h1 : fs'.stateLog = fs.stateLog)
    (h2 : fs'.runState = fs.runState) : ExtendsMono fs fs' :=
  ⟨[], by simp [h1], by simp [h2], trivial⟩

theorem extendsMono_self (fs : FS) : ExtendsMono fs fs :=
  extendsMono_eq fs fs rfl rfl

theorem extendsMono_trans (a b c : FS) (h1 : ExtendsMono a b)
    (h2 : ExtendsMono b c) : ExtendsMono a c := by
  obtain ⟨δ1, e1, r1, c1⟩ := h1
  obtain ⟨δ2, e2, r2, c2⟩ := h2
  refine ⟨δ1 ++ δ2, by simp [e2, e1], ?_, ?_⟩
  · rw [r2, r1, getLastD_append_state]
  · refine chainMono_append _ _ _ c1 ?_
    rw [← r1]
    exact c2

theorem extendsMono_write (fs : FS) (p : StatePatch) (now : String)
    (h : statusRank fs.runState.status ≤ statusRank (applyPatch fs.runState p now).status) :
    ExtendsMono fs (writeRunStateM fs p now) :=
  ⟨[applyPatch fs.runState p now], rfl, by simp [writeRunStateM, List.getLastD], ⟨h, trivial⟩⟩

theorem statusRank_le_four (s : Option Status) : statusRank s ≤ 4 := by
  rcases s with _ | st
  · decide
  · cases st <;> decide

theorem statusRank_le_three (s : Option Status) (h : s ≠ some Status.COMMITTED) :
    statusRank s ≤ 3 := by
  rcases s with _ | st
  · decide
  · cases st
    · decide
    · decide
    · decide
    · exact absurd rfl h

theorem statusRank_le_two (s : Option Status) (h1 : s ≠ some Status.SENT)
    (h2 : s ≠ some Status.COMMITTED) : statusRank s ≤ 2 := by
  rcases s with _ | st
  · decide
  · cases st
    · decide
    · decide
    · exact absurd rfl h1
    · exact absurd rfl h2

theorem commit_extendsMono (d now : String) (fs : FS) :
    ExtendsMono fs (commitRunHistoryIfNeeded d now fs).1 := by
  simp only [commitRunHistoryIfNeeded]
  split
  · exact extendsMono_self fs
  · split
    · exact extendsMono_write fs _ now (statusRank_le_four _)
    · split
      · exact extendsMono_self fs
      · exact extendsMono_trans _ _ _
          (extendsMono_eq fs _ rfl rfl)
          (extendsMono_write _ _ now (statusRank_le_four _))

theorem toolsCommit_extendsMono (d now : String) (fs : FS) :
    ExtendsMono fs (toolsCommitRunHistoryIfNeeded d now fs).1 := by
  simp only [toolsCommitRunHistoryIfNeeded]
  split
  · exact extendsMono_self fs
  · split
    · exact extendsMono_self fs
    · split
      · exact extendsMono_write fs _ now (statusRank_le_four _)
      · exact extendsMono_trans _ _ _
          (extendsMono_eq fs _ rfl rfl)
          (extendsMono_write _ _ now (statusRank_le_four _))

theorem sendRunFinish_extendsMono (d now : String) (res : GmailResult) (b : Bool)
    (fs : FS) (h : fs.runState.status ≠ some Status.COMMITTED) :
    ExtendsMono fs (sendRunFinish d now res b fs).1 := by
  unfold sendRunFinish
  rw [commitThen_fst]
  refine extendsMono_trans _ _ _
    (extendsMono_eq fs
      { fs with sendResult := some { messageId := res.id }
                legacySendResult := some { messageId := res.id } } rfl rfl)
    (extendsMono_trans _ _ _
      (extendsMono_write _ { status := some .SENT, send := some { messageId := res.id } } now
        (statusRank_le_three _ h))
      (commit_extendsMono d now _))

theorem alreadySent_extendsMono (d now : String) (fs : FS) :
    ExtendsMono fs (sendRunAlreadySent d now fs).1 := by
  unfold sendRunAlreadySent
  rw [commitThen_fst]
  by_cases hc : fs.runState.status ≠ some Status.SENT ∧ fs.runState.status ≠ some Status.COMMITTED
  · rw [if_pos hc]
    refine extendsMono_trans _ _ _
      (extendsMono_write fs _ now ?_) (commit_extendsMono d now _)
    show statusRank fs.runState.status ≤ 3
    exact Nat.le_trans (statusRank_le_two _ hc.1 hc.2) (by decide)
  · rw [if_neg hc]
    exact commit_extendsMono d now fs

theorem sendRun_extendsMono (d : String) (rcpts : List String) (net : Net)
    (now : String) (fs : FS) : ExtendsMono fs (sendRun d rcpts net now fs).1 := by
  unfold sendRun
  by_cases h1 : d = ""
  · rw [if_pos h1]
    exact extendsMono_self fs
  rw [if_neg h1]
  by_cases h2 : rcpts.length < 1
  · rw [if_pos h2]
    exact extendsMono_self fs
  rw [if_neg h2]
  cases hpay : fs.emailPayload with
  | none => exact extendsMono_self fs
  | some pl =>
    dsimp only
    by_cases h3 : jsBlank (pl.bodyText.getD "") = true
    · rw [if_pos h3]
      exact extendsMono_self fs
    rw [if_neg h3]
    by_cases h4 : fs.runState.status = some Status.COMMITTED ∨
        jsTruthy fs.runState.committed_at = true
    · rw [if_pos h4]
      exact extendsMono_self fs
    rw [if_neg h4]
    have hne : fs.runState.status ≠ some Status.COMMITTED :=
      fun hco => h4 (Or.inl hco)
    by_cases h5 : (fs.sendResult.isSome || fs.legacySendResult.isSome) = true
    · rw [if_pos h5]
      exact alreadySent_extendsMono d now fs
    rw [if_neg h5]
    cases hoc : fs.oauthClient with
    | none => exact extendsMono_self fs
    | some oc =>
      dsimp only
      cases htk : fs.tokens with
      | none => exact extendsMono_self fs
      | some tk =>
        dsimp only
        by_cases h6 : ¬(jsTruthy oc.client_id = true ∧ jsTruthy oc.client_secret = true)
        · rw [if_pos h6]
          exact extendsMono_self fs
        rw [if_neg h6]
        by_cases h7 : ¬jsTruthy tk.access_token = true
        · rw [if_pos h7]
          exact extendsMono_self fs
        rw [if_neg h7]
        have hbase : ExtendsMono fs { fs with netSends := fs.netSends + 1 } :=
          extendsMono_eq fs _ rfl rfl
        cases hf : net.first with
        | ok result =>
          exact extendsMono_trans _ _ _ hbase
            (sendRunFinish_extendsMono d now result false _ hne)
        | error msg =>
          dsimp only
          by_cases h8 : ¬looksAuthError msg = true
          · rw [if_pos h8]
            exact hbase
          rw [if_neg h8]
          by_cases h9 : ¬jsTruthy tk.refresh_token = true
          · rw [if_pos h9]
            exact hbase
          rw [if_neg h9]
          cases hrf : net.refresh with
          | error e => exact hbase
          | ok refreshed =>
            dsimp only
            cases hs : net.second with
            | error e => exact extendsMono_eq fs _ rfl rfl
            | ok result =>
              exact extendsMono_trans _ _ _ (extendsMono_eq fs _ rfl rfl)
                (sendRunFinish_extendsMono d now result true _ hne)

theorem mainModelTail_extendsMono (d now : String) (rcpts : List String)
    (net : Net) (sendFlag : Bool) (pv : Option EmailPayload)
    (pf : Option PendingJson) (k : Nat) (A : FS)
    (hA : A.runState.status = some Status.STARTED) :
    ExtendsMono A
      ((if sendFlag then
          discardRet (sendRun d rcpts net now
            (writeRunStateM
              { (writeRunStateM { A with emailPayload := pv }
                  { status := some .GENERATED } now) with pendingFile := pf }
              { pending_commit := some k } now))
        else
          (writeRunStateM
            { (writeRunStateM { A with emailPayload := pv }
                { status := some .GENERATED } now) with pendingFile := pf }
            { pending_commit := some k } now, Except.ok ())).1) := by
  have h1 : ExtendsMono A { A with emailPayload := pv } :=
    extendsMono_eq A { A with emailPayload := pv } rfl rfl
  have h2 : ExtendsMono { A with emailPayload := pv }
      (writeRunStateM { A with emailPayload := pv } { status := some .GENERATED } now) :=
    extendsMono_write _ _ now (by
      show statusRank A.runState.status ≤ 2
      rw [hA]
      decide)
  have h3 : ExtendsMono
      (writeRunStateM { A with emailPayload := pv } { status := some .GENERATED } now)
      { (writeRunStateM { A with emailPayload := pv }
          { status := some .GENERATED } now) with pendingFile := pf } :=
    extendsMono_eq _ _ rfl rfl
  have h4 : ExtendsMono
      { (writeRunStateM { A with emailPayload := pv }
          { status := some .GENERATED } now) with pendingFile := pf }
      (writeRunStateM
        { (writeRunStateM { A with emailPayload := pv }
            { status := some .GENERATED } now) with pendingFile := pf }
        { pending_commit := some k } now) :=
    extendsMono_write _ _ now (Nat.le_refl _)
  have hE : ExtendsMono A
      (writeRunStateM
        { (writeRunStateM { A with emailPayload := pv }
            { status := some .GENERATED } now) with pendingFile := pf }
        { pending_commit := some k } now) :=
    extendsMono_trans _ _ _ h1
      (extendsMono_trans _ _ _ h2 (extendsMono_trans _ _ _ h3 h4))
  cases sendFlag with
  | false => exact hE
  | true =>
    rw [if_pos rfl, discardRet_fst]
    exact extendsMono_trans _ _ _ hE (sendRun_extendsMono d rcpts net now _)

theorem mainModel_extendsMono (cfg : MainCfg) (runDir : String)
    (queryBatches : List (Except String (List Candidate)))
    (enrichOutcome : Except String (List RawLead))
    (fmt : String → EmailLeads → EmailPayload)
    (net : Net) (now : String) (fs : FS)
    (h : fs.runState = emptyStateJson) :
    ExtendsMono fs
      (mainModel cfg runDir queryBatches enrichOutcome fmt net now fs).1 := by
  unfold mainModel
  by_cases h1 : cfg.sendFlag = true ∧ cfg.recipients.isEmpty = true
  · rw [if_pos h1]
    exact extendsMono_self fs
  rw [if_neg h1]
  dsimp only
  have hw1 : ExtendsMono fs (writeRunStateM fs { status := some .STARTED } now) :=
    extendsMono_write fs _ now (by
      show statusRank fs.runState.status ≤ 1
      rw [h]
      decide)
  cases hml : mergeLoopE cfg.leadsPerRun (loadSentFingerprints fs.ledger) queryBatches [] with
  | error e => exact hw1
  | ok mr =>
    dsimp only
    exact extendsMono_trans _ _ _ hw1
      (mainModelTail_extendsMono runDir now cfg.recipients net cfg.sendFlag _ _ _ _ rfl)

/-- C7: the persisted run status only ever advances through the order
STARTED → GENERATED → SENT → COMMITTED: in every execution of
`commitRunHistoryIfNeeded` (both copies), `sendRun`, and `main` (started on
its freshly created run directory), the sequence of `writeRunState` writes
is status-monotone — no write persists a status earlier in that order than
the previously persisted one. -/
theorem runState_status_monotone :
    (∀ (d now : String) (fs : FS),
      ExtendsMono fs (commitRunHistoryIfNeeded d now fs).1) ∧
    (∀ (d now : String) (fs : FS),
      ExtendsMono fs (toolsCommitRunHistoryIfNeeded d now fs).1) ∧
    (∀ (d : String) (rcpts : List String) (net : Net) (now : String) (fs : FS),
      ExtendsMono fs (sendRun d rcpts net now fs).1) ∧
    (∀ (cfg : MainCfg) (runDir : String)
      (queryBatches : List (Except String (List Candidate)))
      (enrichOutcome : Except String (List RawLead))
      (fmt : String → EmailLeads → EmailPayload)
      (net : Net) (now : String) (fs : FS), fs.runState = emptyStateJson →
      ExtendsMono fs
        (mainModel cfg runDir queryBatches enrichOutcome fmt net now fs).1) :=
  ⟨commit_extendsMono, toolsCommit_extendsMono, sendRun_extendsMono,
   mainModel_extendsMono⟩

/-- C7 witness: a full pipeline run (with send) on a fresh run directory
produces a status-monotone sequence of state writes. -/
theorem runState_status_monotone_witness :
    ExtendsMono fsBase
      (mainModel { leadsPerRun := 1, skipEnrich := true, sendFlag := true
                   recipients := ["a@x.com"] }
        "reports/d/r1" [Except.ok [mkCand "c1" 1]] (Except.error "skipped")
        (fun _ _ => payloadEx) netOk "T1" fsBase).1 :=
  runState_status_monotone.2.2.2
    { leadsPerRun := 1, skipEnrich := true, sendFlag := true, recipients := ["a@x.com"] }
    "reports/d/r1" [Except.ok [mkCand "c1" 1]] (Except.error "skipped")
    (fun _ _ => payloadEx) netOk "T1" fsBase rfl

/-! ### Merge, dedup and selection lemmas -/

theorem mem_fresh (cands : List Candidate) (sent : List String) (c : Candidate)
    (h : c ∈ (filterNewCandidates cands sent).fresh) :
    c ∈ cands ∧ ∃ fp, c.fingerprint = some fp ∧ fp ≠ "" ∧ sent.contains fp = false := by
  induction cands with
  | nil => cases h
  | cons c0 cs ih =>
    simp only [filterNewCandidates] at h
    rcases hfp : c0.fingerprint with _ | fp
    · simp only [hfp] at h
      obtain ⟨h1, h2⟩ := ih h
      exact ⟨List.mem_cons_of_mem c0 h1, h2⟩
    · simp only [hfp] at h
      by_cases he : fp = ""
      · rw [if_pos he] at h
        obtain ⟨h1, h2⟩ := ih h
        exact ⟨List.mem_cons_of_mem c0 h1, h2⟩
      · rw [if_neg he] at h
        by_cases hs : sent.contains fp = true
        · rw [if_pos hs] at h
          obtain ⟨h1, h2⟩ := ih h
          exact ⟨List.mem_cons_of_mem c0 h1, h2⟩
        · rw [if_neg hs] at h
          rcases List.mem_cons.mp h with hc | hc
          · subst hc
            exact ⟨List.mem_cons_self c cs, fp, hfp, he, Bool.not_eq_true _ ▸ hs⟩
          · obtain ⟨h1, h2⟩ := ih hc
            exact ⟨List.mem_cons_of_mem c0 h1, h2⟩

/-- C4: after the query loop, selection takes the first `n` fresh candidates
of the merged set re-sorted by descending score; no selected candidate's
fingerprint is in the Sent-Ledger set loaded at run start, and when fewer
than `n` fresh candidates exist the whole fresh list is selected (no
error — the function is total). -/
theorem selection_takes_fresh (ledger : Option (List LedgerLine))
    (merged : List Candidate) (n : Nat) :
    (∀ c ∈ selectTopFresh merged (loadSentFingerprints ledger) n, ∀ fp,
      c.fingerprint = some fp → (loadSentFingerprints ledger).contains fp = false) ∧
    (selectTopFresh merged (loadSentFingerprints ledger) n).length =
      min n ((filterNewCandidates (sortByScoreDesc merged)
        (loadSentFingerprints ledger)).fresh).length ∧
    (((filterNewCandidates (sortByScoreDesc merged)
        (loadSentFingerprints ledger)).fresh).length ≤ n →
      selectTopFresh merged (loadSentFingerprints ledger) n =
        (filterNewCandidates (sortByScoreDesc merged)
          (loadSentFingerprints ledger)).fresh) := by
  refine ⟨?_, List.length_take _ _, List.take_of_length_le⟩
  intro c hc fp hfp
  have hmem := List.take_subset n _ hc
  obtain ⟨_, fp', hfp', _, hcon⟩ := mem_fresh _ _ c hmem
  rw [hfp] at hfp'
  cases hfp'
  exact hcon

/-- C4 witness: with a ledger containing fingerprint "a", selecting from a
merged set holding candidates "a" and "b" never yields a ledger member. -/
theorem selection_takes_fresh_witness :
    (loadSentFingerprints (some [LedgerLine.entry (some "a") none])).contains "b" = false :=
  (selection_takes_fresh (some [LedgerLine.entry (some "a") none])
      [mkCand "a" 10, mkCand "b" 5] 1).1
    (mkCand "b" 5) (by decide) "b" rfl

theorem uniqueAux_filter (fp : String) (hfp : fp ≠ "") :
    ∀ (cs : List Candidate) (seen : List String),
      (uniqueByFingerprintAux seen cs).filter (fun c => decide (c.fingerprint = some fp)) =
        if seen.contains fp = true then []
        else (cs.filter (fun c => decide (c.fingerprint = some fp))).take 1 := by
  intro cs
  induction cs with
  | nil =>
    intro seen
    by_cases hs : seen.contains fp = true <;> simp [uniqueByFingerprintAux, hs]
  | cons c0 rest ih =>
    intro seen
    simp only [uniqueByFingerprintAux]
    rcases h0 : c0.fingerprint with _ | f0
    · dsimp only
      have hp : ¬(decide (c0.fingerprint = some fp)) = true := by simp [h0]
      rw [@List.filter_cons_of_neg _ (fun c => decide (c.fingerprint = some fp)) c0 rest hp]
      exact ih seen
    · dsimp only
      by_cases he : f0 = ""
      · have hp : ¬(decide (c0.fingerprint = some fp)) = true := by
          simp [h0, he]
          exact fun hcontra => hfp hcontra.symm
        rw [if_pos he,
          @List.filter_cons_of_neg _ (fun c => decide (c.fingerprint = some fp)) c0 rest hp]
        exact ih seen
      · by_cases hseen : seen.contains f0 = true
        · rw [if_neg he, if_pos hseen, ih seen]
          by_cases hf : f0 = fp
          · subst hf
            rw [if_pos hseen, if_pos hseen]
          · have hp : ¬(decide (c0.fingerprint = some fp)) = true := by simp [h0, hf]
            rw [@List.filter_cons_of_neg _ (fun c => decide (c.fingerprint = some fp)) c0 rest hp]
        · rw [if_neg he, if_neg hseen]
          by_cases hf : f0 = fp
          · subst hf
            have hp : (decide (c0.fingerprint = some f0)) = true := by simp [h0]
            rw [@List.filter_cons_of_pos _ (fun c => decide (c.fingerprint = some f0)) c0 (uniqueByFingerprintAux (f0 :: seen) rest) hp, @List.filter_cons_of_pos _ (fun c => decide (c.fingerprint = some f0)) c0 rest hp,
              ih (f0 :: seen)]
            have hcons : (f0 :: seen).contains f0 = true := by
              simp [List.contains]
            rw [if_pos hcons, if_neg hseen]
            simp
          · have hp : ¬(decide (c0.fingerprint = some fp)) = true := by simp [h0, hf]
            rw [@List.filter_cons_of_neg _ (fun c => decide (c.fingerprint = some fp)) c0 (uniqueByFingerprintAux (f0 :: seen) rest) hp, @List.filter_cons_of_neg _ (fun c => decide (c.fingerprint = some fp)) c0 rest hp,
              ih (f0 :: seen)]
            have hcons : (f0 :: seen).contains fp = seen.contains fp := by
              simp [List.contains, List.elem_cons]
              intro hcontra
              exact absurd hcontra.symm hf
            rw [hcons]

theorem mem_uniqueAux (c : Candidate) :
    ∀ (cs : List Candidate) (seen : List String),
      c ∈ uniqueByFingerprintAux seen cs → c ∈ cs ∧ jsTruthy c.fingerprint = true := by
  intro cs
  induction cs with
  | nil => intro seen h; cases h
  | cons c0 rest ih =>
    intro seen h
    simp only [uniqueByFingerprintAux] at h
    rcases h0 : c0.fingerprint with _ | f0
    · simp only [h0] at h
      obtain ⟨h1, h2⟩ := ih seen h
      exact ⟨List.mem_cons_of_mem c0 h1, h2⟩
    · simp only [h0] at h
      by_cases he : f0 = ""
      · rw [if_pos he] at h
        obtain ⟨h1, h2⟩ := ih seen h
        exact ⟨List.mem_cons_of_mem c0 h1, h2⟩
      · rw [if_neg he] at h
        by_cases hseen : seen.contains f0 = true
        · rw [if_pos hseen] at h
          obtain ⟨h1, h2⟩ := ih seen h
          exact ⟨List.mem_cons_of_mem c0 h1, h2⟩
        · rw [if_neg hseen] at h
          rcases List.mem_cons.mp h with hc | hc
          · subst hc
            refine ⟨List.mem_cons_self c rest, ?_⟩
            simp [jsTruthy, h0, he]
          · obtain ⟨h1, h2⟩ := ih (f0 :: seen) hc
            exact ⟨List.mem_cons_of_mem c0 h1, h2⟩

/-- C5: `uniqueByFingerprint` deduplicates by fingerprint with the first
occurrence winning: for every truthy fingerprint, the output's entries with
that fingerprint are exactly the first such input entry (kept whole — score
and reasons included); every output entry comes from the input and carries a
truthy fingerprint. -/
theorem uniqueByFingerprint_firstWins (l : List Candidate) (fp : String)
    (h : fp ≠ "") :
    (uniqueByFingerprint l).filter (fun c => decide (c.fingerprint = some fp)) =
      (l.filter (fun c => decide (c.fingerprint = some fp))).take 1 ∧
    ∀ c ∈ uniqueByFingerprint l, c ∈ l ∧ jsTruthy c.fingerprint = true := by
  constructor
  · have hx := uniqueAux_filter fp h l []
    simpa [uniqueByFingerprint] using hx
  · intro c hc
    exact mem_uniqueAux c l [] hc

/-- C5 witness: with two candidates sharing fingerprint "a", the merged
output keeps exactly the first instance (score 10), discarding the later
duplicate (score 7). -/
theorem uniqueByFingerprint_firstWins_witness :
    (uniqueByFingerprint [mkCand "a" 10, mkCand "a" 7, mkCand "b" 5]).filter
      (fun c => decide (c.fingerprint = some "a")) = [mkCand "a" 10] :=
  Eq.trans
    ((uniqueByFingerprint_firstWins [mkCand "a" 10, mkCand "a" 7, mkCand "b" 5]
        "a" (by decide)).1)
    (by decide)

theorem mergeLoopE_map_ok (n : Nat) (sent : List String) :
    ∀ (bs : List (List Candidate)) (m : List Candidate),
      mergeLoopE n sent (bs.map Except.ok) m = .ok (mergeLoopAux n sent bs m) := by
  intro bs
  induction bs with
  | nil => intro m; rfl
  | cons b rest ih =>
    intro m
    simp only [List.map_cons, mergeLoopE, mergeLoopAux]
    by_cases h : n ≤ freshLen sent (mergeStep m b)
    · rw [if_pos h, if_pos h]
    · rw [if_neg h, if_neg h, ih (mergeStep m b)]

theorem mergeLoopAux_spec (n : Nat) (sent : List String) :
    ∀ (bs : List (List Candidate)) (m : List Candidate),
      (mergeLoopAux n sent bs m).2 ≤ bs.length ∧
      (mergeLoopAux n sent bs m).1 =
        (bs.take (mergeLoopAux n sent bs m).2).foldl mergeStep m ∧
      (∀ j, 0 < j → j < (mergeLoopAux n sent bs m).2 →
        freshLen sent ((bs.take j).foldl mergeStep m) < n) ∧
      ((mergeLoopAux n sent bs m).2 < bs.length →
        n ≤ freshLen sent (mergeLoopAux n sent bs m).1) := by
  intro bs
  induction bs with
  | nil =>
    intro m
    refine ⟨Nat.le_refl _, rfl, ?_, ?_⟩
    · intro j hj0 hj
      exact absurd hj (by simp [mergeLoopAux])
    · intro hcontra
      exact absurd hcontra (by simp [mergeLoopAux])
  | cons b rest ih =>
    intro m
    simp only [mergeLoopAux]
    by_cases h : n ≤ freshLen sent (mergeStep m b)
    · rw [if_pos h]
      refine ⟨Nat.succ_le_succ (Nat.zero_le _), by simp, ?_, fun _ => h⟩
      intro j hj0 hj
      omega
    · rw [if_neg h]
      obtain ⟨ih1, ih2, ih3, ih4⟩ := ih (mergeStep m b)
      refine ⟨Nat.succ_le_succ ih1, ?_, ?_, ?_⟩
      · rw [List.take_succ_cons, List.foldl_cons]
        exact ih2
      · intro j hj0 hj
        match j with
        | 1 =>
          simp only [List.take_succ_cons, List.take_zero, List.foldl_cons, List.foldl_nil]
          omega
        | j' + 2 =>
          rw [List.take_succ_cons, List.foldl_cons]
          exact ih3 (j' + 1) (by omega) (by omega)
      · intro hlt
        simp only [List.length_cons] at hlt
        exact ih4 (by omega)

/-- C6: the query loop issues variants strictly in order and stops as soon as
the fresh count of the merged set reaches `n`, or when the variants run out,
whichever comes first: the number of queries issued never exceeds the number
of variants, the merged result is the fold of exactly the batches issued,
every earlier prefix had a fresh count below `n`, stopping before exhaustion
implies the fresh target was met — and in particular, if the first variant's
batch alone reaches `n` fresh candidates, exactly one query is issued. -/
theorem mergeLoop_stopsEarly (n : Nat) (sent : List String)
    (batches : List (List Candidate)) :
    (mergeLoop n sent batches).2 ≤ batches.length ∧
    (mergeLoop n sent batches).1 =
      (batches.take (mergeLoop n sent batches).2).foldl mergeStep [] ∧
    (∀ j, 0 < j → j < (mergeLoop n sent batches).2 →
      freshLen sent ((batches.take j).foldl mergeStep []) < n) ∧
    ((mergeLoop n sent batches).2 < batches.length →
      n ≤ freshLen sent (mergeLoop n sent batches).1) ∧
    (∀ b0 bs, batches = b0 :: bs → n ≤ freshLen sent (mergeStep [] b0) →
      mergeLoop n sent batches = (mergeStep [] b0, 1)) := by
  obtain ⟨h1, h2, h3, h4⟩ := mergeLoopAux_spec n sent batches []
  refine ⟨h1, h2, h3, h4, ?_⟩
  intro b0 bs hb hfresh
  subst hb
  simp only [mergeLoop, mergeLoopAux]
  rw [if_pos hfresh]

/-- C6 witness: with target `n = 5` and a first query variant yielding 6
fresh unique candidates, exactly one query is issued and the second variant
is never queried. -/
theorem mergeLoop_stopsEarly_witness :
    mergeLoop 5 [] [batch6, batch1] = (mergeStep [] batch6, 1) :=
  (mergeLoop_stopsEarly 5 [] [batch6, batch1]).2.2.2.2 batch6 [batch1] rfl
    (by decide)

/-! ### Ledger-scan lemmas -/

theorem loadAux_contains (fp : String) :
    ∀ (lines : List LedgerLine) (set : List String),
      ((loadSentFingerprintsAux lines set).contains fp = true) ↔
        (set.contains fp = true ∨
          (fp ≠ "" ∧ ∃ rd, LedgerLine.entry (some fp) rd ∈ lines)) := by
  intro lines
  induction lines with
  | nil =>
    intro set
    simp [loadSentFingerprintsAux]
  | cons line rest ih =>
    intro set
    cases line with
    | malformed =>
      simp only [loadSentFingerprintsAux]
      rw [ih set]
      constructor
      · rintro (hs | ⟨hne, rd, hmem⟩)
        · exact Or.inl hs
        · exact Or.inr ⟨hne, rd, List.mem_cons_of_mem _ hmem⟩
      · rintro (hs | ⟨hne, rd, hmem⟩)
        · exact Or.inl hs
        · rcases List.mem_cons.mp hmem with heq | hmem'
          · cases heq

          · exact Or.inr ⟨hne, rd, hmem'⟩
    | entry efp erd =>
      cases efp with
      | none =>
        simp only [loadSentFingerprintsAux]
        rw [ih set]
        constructor
        · rintro (hs | ⟨hne, rd, hmem⟩)
          · exact Or.inl hs
          · exact Or.inr ⟨hne, rd, List.mem_cons_of_mem _ hmem⟩
        · rintro (hs | ⟨hne, rd, hmem⟩)
          · exact Or.inl hs
          · rcases List.mem_cons.mp hmem with heq | hmem'
            · cases heq

            · exact Or.inr ⟨hne, rd, hmem'⟩
      | some s =>
        simp only [loadSentFingerprintsAux]
        by_cases hs0 : s ≠ ""
        · rw [if_pos hs0, ih _]
          have hnew : ((if set.contains s = true then set else set ++ [s]).contains fp = true)
              ↔ (set.contains fp = true ∨ fp = s) := by
            by_cases hc : set.contains s = true
            · rw [if_pos hc]
              constructor
              · exact fun hx => Or.inl hx
              · rintro (hx | hx)
                · exact hx
                · rw [hx]; exact hc
            · rw [if_neg hc]
              simp [List.contains, List.mem_append]
          rw [hnew]
          constructor
          · rintro (⟨hs | heq⟩ | ⟨hne, rd, hmem⟩)
            · exact Or.inl hs
            · refine Or.inr ⟨by rw [heq]; exact hs0, erd, ?_⟩
              rw [heq]
              exact List.mem_cons_self _ _
            · exact Or.inr ⟨hne, rd, List.mem_cons_of_mem _ hmem⟩
          · rintro (hs | ⟨hne, rd, hmem⟩)
            · exact Or.inl (Or.inl hs)
            · rcases List.mem_cons.mp hmem with heq | hmem'
              · injection heq with h1 h2
                injection h1 with h1
                exact Or.inl (Or.inr h1)
              · exact Or.inr ⟨hne, rd, hmem'⟩
        · rw [if_neg hs0, ih set]
          have hse : s = "" := by
            by_contra hcontra
            exact hs0 hcontra
          constructor
          · rintro (hs | ⟨hne, rd, hmem⟩)
            · exact Or.inl hs
            · exact Or.inr ⟨hne, rd, List.mem_cons_of_mem _ hmem⟩
          · rintro (hs | ⟨hne, rd, hmem⟩)
            · exact Or.inl hs
            · rcases List.mem_cons.mp hmem with heq | hmem'
              · injection heq with h1 h2
                injection h1 with h1
                exact absurd (h1.trans hse) hne
              · exact Or.inr ⟨hne, rd, hmem'⟩

theorem hasRunDir_iff (d : String) (lines : List LedgerLine) :
    sentHistoryHasRunDir d (some lines) = true ↔
      ∃ fp, LedgerLine.entry fp (some d) ∈ lines := by
  simp only [sentHistoryHasRunDir, List.any_eq_true]
  constructor
  · rintro ⟨line, hmem, hpred⟩
    cases line with
    | malformed => cases hpred
    | entry efp erd =>
      have : erd = some d := of_decide_eq_true hpred
      subst this
      exact ⟨efp, hmem⟩
  · rintro ⟨fp, hmem⟩
    exact ⟨LedgerLine.entry fp (some d), hmem, by simp⟩

/-- C8 counterexample: a ledger line that parses as a JSON object with a
`fingerprint` field whose value is the empty string is skipped by the
membership scan (JS truthiness), so the returned set omits that
fingerprint value, contrary to the claim as stated. -/
theorem ledger_scan_counterexample :
    loadSentFingerprints (some [LedgerLine.entry (some "") none]) = [] ∧
    ¬(loadSentFingerprints (some [LedgerLine.entry (some "") none])).contains "" = true ∧
    LedgerLine.entry (some "") none ∈ [LedgerLine.entry (some "") none] :=
  ⟨rfl, by decide, by decide⟩

/-- C8 (amended): the ledger membership scan is corruption-tolerant and
total: a missing file yields the empty set; otherwise the set contains
exactly the non-empty (truthy) fingerprint values of the lines that parse
as JSON objects with a fingerprint field, skipping malformed lines.
`sentHistoryHasRunDir` likewise ignores malformed lines, returns false on a
missing file, and otherwise reports whether some parsed line's `runDir`
equals the run's directory. -/
theorem ledger_scan_corruptionTolerant :
    (loadSentFingerprints none = []) ∧
    (∀ (lines : List LedgerLine) (fp : String),
      (loadSentFingerprints (some lines)).contains fp = true ↔
        (fp ≠ "" ∧ ∃ rd, LedgerLine.entry (some fp) rd ∈ lines)) ∧
    (∀ d : String, sentHistoryHasRunDir d none = false) ∧
    (∀ (d : String) (lines : List LedgerLine),
      sentHistoryHasRunDir d (some lines) = true ↔
        ∃ fp, LedgerLine.entry fp (some d) ∈ lines) := by
  refine ⟨rfl, ?_, fun d => rfl, hasRunDir_iff⟩
  intro lines fp
  rw [loadSentFingerprints, loadAux_contains fp lines []]
  simp

/-- C8 witness: a ledger with one good line, one malformed line and one
empty-fingerprint line yields exactly the good fingerprint, and the
runDir lookup finds the good line's runDir. -/
theorem ledger_scan_corruptionTolerant_witness :
    ((loadSentFingerprints (some [LedgerLine.entry (some "x") (some "reports/d/r1"),
        LedgerLine.malformed])).contains "x" = true) ∧
    sentHistoryHasRunDir "reports/d/r1"
      (some [LedgerLine.entry (some "x") (some "reports/d/r1"),
        LedgerLine.malformed]) = true :=
  ⟨(ledger_scan_corruptionTolerant.2.1 _ "x").mpr
      ⟨by decide, some "reports/d/r1", by simp⟩,
   (ledger_scan_corruptionTolerant.2.2.2 "reports/d/r1" _).mpr
      ⟨some "x", by simp⟩⟩

/-! ### State-overlay and email-fallback claims -/

/-- C9: persisting run state is a patch overlay, not a replacement: for
every previously persisted object and every patch, a field not named in the
patch (other than `updated_at`) keeps its prior value, a field named in the
patch takes the patch's value, and `updated_at` is always rewritten to the
current timestamp. -/
theorem writeRunState_patchOverlay (prev patch : JsObj) (now k : String)
    (h : k ≠ "updated_at") :
    (patch k = none → writeRunStateObj prev patch now k = prev k) ∧
    (∀ v, patch k = some v → writeRunStateObj prev patch now k = some v) ∧
    writeRunStateObj prev patch now "updated_at" = some (JsVal.str now) := by
  refine ⟨?_, ?_, ?_⟩
  · intro hk
    simp [writeRunStateObj, h, hk]
  · intro v hk
    simp [writeRunStateObj, h, hk]
  · simp [writeRunStateObj]

/-- C9 witness: overlaying `{b: 2}` onto `{a: 1}` keeps `a`, adopts `b`, and
stamps `updated_at`. -/
theorem writeRunState_patchOverlay_witness :
    writeRunStateObj prevObjEx patchObjEx "T" "a" = prevObjEx "a" ∧
    writeRunStateObj prevObjEx patchObjEx "T" "b" = some (JsVal.num 2) ∧
    writeRunStateObj prevObjEx patchObjEx "T" "updated_at" = some (JsVal.str "T") :=
  ⟨(writeRunState_patchOverlay prevObjEx patchObjEx "T" "a" (by decide)).1 (by decide),
   (writeRunState_patchOverlay prevObjEx patchObjEx "T" "b" (by decide)).2.1
     (JsVal.num 2) (by decide),
   (writeRunState_patchOverlay prevObjEx patchObjEx "T" "a" (by decide)).2.2⟩

/-- C10: when enrichment succeeds but yields an empty list — in particular
when every returned lead carries a fingerprint absent from the input
selection, so the allow-list filter drops them all — the email is built from
the un-enriched selected candidates in "scored" mode; the enriched list is
used only when it is non-empty. -/
theorem email_fallback (selected : List Candidate) (leads : List RawLead)
    (h : ∀ l ∈ leads,
      (selected.map (fun c => c.fingerprint)).contains l.fingerprint = false) :
    enrichAllowFilter selected leads = [] ∧
    chooseEmail (enrichAllowFilter selected leads) selected =
      ("scored", .scored selected) ∧
    chooseEmail [] selected = ("scored", .scored selected) ∧
    (∀ enriched : List RawLead, enriched ≠ [] →
      chooseEmail enriched selected = ("normalized", .normalized enriched)) := by
  have hempty : enrichAllowFilter selected leads = [] := by
    unfold enrichAllowFilter
    refine List.filter_eq_nil_iff.mpr ?_
    intro l hl hcontra
    rw [Bool.and_eq_true] at hcontra
    obtain ⟨h1, h2⟩ := hcontra
    rw [h l hl] at h2
    cases h2
  refine ⟨hempty, ?_, rfl, ?_⟩
  · rw [hempty]
    rfl
  · intro enriched hne
    unfold chooseEmail
    rw [if_pos (List.length_pos.mpr hne)]

/-- C10 witness: a lead returned with a fingerprint not in the selection is
filtered out; with nothing left, the email uses the selected candidates in
"scored" mode. -/
theorem email_fallback_witness :
    enrichAllowFilter [mkCand "a" 10] [mkLead (some "zz")] = [] ∧
    chooseEmail (enrichAllowFilter [mkCand "a" 10] [mkLead (some "zz")])
      [mkCand "a" 10] = ("scored", .scored [mkCand "a" 10]) :=
  ⟨(email_fallback [mkCand "a" 10] [mkLead (some "zz")] (by decide)).1,
   (email_fallback [mkCand "a" 10] [mkLead (some "zz")] (by decide)).2.1⟩

end Openclaw
